import Mathlib

/-!
A shallow embedding of `tools/check_api_ui_usage.py` (repository SDSM):
route extraction from the server's `main.go`, the per-endpoint search
pattern built by `Endpoint.build_regex`, the UI-file usage scan, and the
printed report.

Python regular expressions are modelled on exactly the fragment of syntax
the script can produce: the output of `re.escape` (Python >= 3.7 semantics),
the `[^/]+` and `[^\s]*` insertions made by `PARAM_RE.sub` and
`.replace("\\*", ...)`, and the two fixed patterns `ROUTE_RE` and
`PARAM_RE` themselves.  File-system effects (existence of roots, directory
entries, UTF-8 decodability) are passed in as explicit data; the report is
the list of printed lines; `raise SystemExit(msg)` is `Except.error msg`.
-/

namespace SDSM

/-- Python `\s` restricted to the ASCII range (the script scans source text;
the embedding does not model the non-ASCII Unicode whitespace that Python
`\s` would additionally accept). -/
def pyIsSpace (c : Char) : Bool :=
  c = ' ' || c = '\t' || c = '\n' || c = '\r' || c = Char.ofNat 11 || c = Char.ofNat 12

/-- The character class `[a-zA-Z0-9_]` of `PARAM_RE`. -/
def isWordChar (c : Char) : Bool :=
  c.isAlpha || c.isDigit || c = '_'

/-- The characters Python >= 3.7 `re.escape` prefixes with a backslash:
`()[]{}?*+-|^$\.&~#` together with space, tab, newline, carriage return,
vertical tab and form feed. -/
def pySpecial (c : Char) : Bool :=
  c = '(' || c = ')' || c = '[' || c = ']' || c = Char.ofNat 123 || c = Char.ofNat 125 ||
  c = '?' || c = '*' || c = '+' || c = '-' || c = '|' || c = '^' ||
  c = '$' || c = '\\' || c = '.' || c = '&' || c = '~' || c = '#' ||
  c = ' ' || c = '\t' || c = '\n' || c = '\r' || c = Char.ofNat 11 || c = Char.ofNat 12

/-- `re.escape` (Python >= 3.7): prefix every special character with `\`. -/
def reEscape (l : List Char) : List Char :=
  l.flatMap (fun c => if pySpecial c then ['\\', c] else [c])

/-- `PARAM_RE.sub(r"[^/]+", pattern)` where `PARAM_RE = \\:([a-zA-Z0-9_]+)`:
scan left to right; each occurrence of a literal backslash, a colon and a
maximal nonempty run of word characters is replaced by the five characters
`[^/]+`; everything else is copied. -/
def paramSubF : Nat → List Char → List Char
  | _, [] => []
  | 0, l => l
  | fuel + 1, '\\' :: ':' :: c :: rest =>
    if isWordChar c then
      '[' :: '^' :: '/' :: ']' :: '+' :: paramSubF fuel (rest.dropWhile isWordChar)
    else
      '\\' :: ':' :: paramSubF fuel (c :: rest)
  | fuel + 1, c :: rest => c :: paramSubF fuel rest

/-- The substitution applied to a whole pattern.  The fuel (one unit per
scanner step, each of which consumes at least one character) is bounded by
the list length, so `paramSubF`'s fuel never runs out; the fuel only makes
the recursion structural. -/
def paramSub (l : List Char) : List Char :=
  paramSubF l.length l

/-- `pattern.replace("\\*", "[^\s]*")`: left-to-right replacement of the
two-character sequence `\*` by the six characters `[^\s]*`. -/
def starSub : List Char → List Char
  | '\\' :: '*' :: rest => '[' :: '^' :: '\\' :: 's' :: ']' :: '*' :: starSub rest
  | c :: rest => c :: starSub rest
  | [] => []

/-- Quantifier attached to a regex atom (`a`, `a+`, `a*`). -/
inductive Quant
  | one
  | plus
  | star
deriving DecidableEq, Repr

/-- The atoms of the regex fragment reachable from `Endpoint.build_regex`:
literal characters (including every `\c` escape that fragment can contain,
whose `c` is never alphanumeric), the two character classes `[^/]` and
`[^\s]`, and the start/end anchors `^` and `$`. -/
inductive RTok
  | lit (c : Char)
  | notSlash
  | notSpace
  | bos
  | eos
deriving DecidableEq, Repr

/-- One quantified atom of a compiled pattern. -/
structure RAtom where
  tok : RTok
  q : Quant
deriving DecidableEq, Repr

/-- `re.compile` on the pattern strings `build_regex` can produce,
accumulator form; a postfix `+`/`*` re-quantifies the previous atom. -/
def compileAux : List Char → List RAtom → List RAtom
  | [], acc => acc.reverse
  | '[' :: '^' :: '/' :: ']' :: rest, acc => compileAux rest (⟨.notSlash, .one⟩ :: acc)
  | '[' :: '^' :: '\\' :: 's' :: ']' :: rest, acc => compileAux rest (⟨.notSpace, .one⟩ :: acc)
  | '\\' :: c :: rest, acc => compileAux rest (⟨.lit c, .one⟩ :: acc)
  | '^' :: rest, acc => compileAux rest (⟨.bos, .one⟩ :: acc)
  | '$' :: rest, acc => compileAux rest (⟨.eos, .one⟩ :: acc)
  | '+' :: rest, a :: acc => compileAux rest (⟨a.tok, .plus⟩ :: acc)
  | '*' :: rest, a :: acc => compileAux rest (⟨a.tok, .star⟩ :: acc)
  | '+' :: rest, [] => compileAux rest []
  | '*' :: rest, [] => compileAux rest []
  | c :: rest, acc => compileAux rest (⟨.lit c, .one⟩ :: acc)

/-- Compile a pattern string into its atom list. -/
def compilePat (l : List Char) : List RAtom :=
  compileAux l []

/-- Whether a single character satisfies a (width-one) token. -/
def tokTest : RTok → Char → Bool
  | .lit c, d => d = c
  | .notSlash, d => d ≠ '/'
  | .notSpace, d => !pyIsSpace d
  | .bos, _ => false
  | .eos, _ => false

/-- `chunkOk t s pos k`: the characters `s[pos..pos+k)` all exist and all
satisfy `t`. -/
def chunkOk (t : RTok) (s : List Char) (pos k : Nat) : Bool :=
  pos + k ≤ s.length && ((s.drop pos).take k).all (tokTest t)

/-- Nondeterministic matching of a compiled pattern against `s` starting at
absolute position `pos`: true iff some way of choosing repetition counts
makes every atom match in sequence.  For the quantifiers and classes at
hand this coincides with Python's backtracking search. -/
def matchFrom (pat : List RAtom) (s : List Char) (pos : Nat) : Bool :=
  match pat with
  | [] => true
  | a :: rest =>
    match a.tok, a.q with
    | .bos, _ => pos == 0 && matchFrom rest s pos
    | .eos, _ => pos == s.length && matchFrom rest s pos
    | t, .one => chunkOk t s pos 1 && matchFrom rest s (pos + 1)
    | t, .plus =>
      (List.range (s.length - pos)).any
        (fun j => chunkOk t s pos (j + 1) && matchFrom rest s (pos + j + 1))
    | t, .star =>
      (List.range (s.length - pos + 1)).any
        (fun k => chunkOk t s pos k && matchFrom rest s (pos + k))

/-- `pattern.search(text)` as a Boolean: some start position admits a match. -/
def research (pat : List RAtom) (s : List Char) : Bool :=
  (List.range (s.length + 1)).any (fun i => matchFrom pat s i)

/-- One attempt of `ROUTE_RE = api\.([A-Z]+)\s*\(\s*\"([^\"]+)\"` anchored at
the head of `l`; returns the two captures and the text after the match.
Every quantified piece is disjoint from what follows it, so maximal munch
is exact. -/
def matchRoute (l : List Char) : Option (List Char × List Char × List Char) :=
  match l with
  | 'a' :: 'p' :: 'i' :: '.' :: r0 =>
    if (r0.takeWhile Char.isUpper).isEmpty then none else
    match (r0.dropWhile Char.isUpper).dropWhile pyIsSpace with
    | '(' :: r1 =>
      match r1.dropWhile pyIsSpace with
      | '"' :: r2 =>
        if (r2.takeWhile (fun c => c ≠ '"')).isEmpty then none else
        match r2.dropWhile (fun c => c ≠ '"') with
        | '"' :: r3 => some (r0.takeWhile Char.isUpper, r2.takeWhile (fun c => c ≠ '"'), r3)
        | _ => none
      | _ => none
    | _ => none
  | _ => none

/-- `ROUTE_RE.finditer`, fuel-indexed: try a match at every position, left to
right, non-overlapping; `pos` is the absolute index of the head of the list
in the scanned text.  Each hit is reported with its start position.  A
successful match always consumes at least one character (in fact at least
eight), so fuel equal to the initial length never runs out. -/
def scanRoutesF : Nat → List Char → Nat → List (List Char × List Char × Nat)
  | _, [], _ => []
  | 0, _, _ => []
  | fuel + 1, c :: rest, pos =>
    match matchRoute (c :: rest) with
    | some (m, p, r) => (m, p, pos) :: scanRoutesF fuel r (pos + ((c :: rest).length - r.length))
    | none => scanRoutesF fuel rest (pos + 1)

/-- All `ROUTE_RE` matches of a text, with their start positions. -/
def scanRoutes (l : List Char) (pos : Nat) : List (List Char × List Char × Nat) :=
  scanRoutesF l.length l pos

/-- The `Endpoint` dataclass.  `method` and `path` are the two captures of
`ROUTE_RE`; `matches` holds repository-relative paths of matching files. -/
structure Endpoint where
  method : List Char
  path : List Char
  line : Nat
  regex : Option (List RAtom) := none
  used : Bool := false
  matches' : List String := []
deriving DecidableEq, Repr

/-- `full_path`: the API group is mounted at `/api`. -/
def Endpoint.full_path (ep : Endpoint) : List Char :=
  "/api".data ++ ep.path

/-- `build_regex`: escape the full path, loosen parameter segments with
`PARAM_RE.sub`, loosen wildcard segments with `.replace`, and compile. -/
def Endpoint.build_regex (ep : Endpoint) : List RAtom :=
  compilePat (starSub (paramSub (reEscape ep.full_path)))

/-- The `(method, path)` deduplication key. -/
def epKey (ep : Endpoint) : List Char × List Char :=
  (ep.method, ep.path)

/-- The dict-based deduplication of `parse_endpoints`: keep each key's first
occurrence, in first-occurrence order. -/
def dedupEPs : List Endpoint → List (List Char × List Char) → List Endpoint
  | [], _ => []
  | ep :: rest, seen =>
    if epKey ep ∈ seen then dedupEPs rest seen
    else ep :: dedupEPs rest (epKey ep :: seen)

/-- Build the raw `Endpoint` for a `ROUTE_RE` match: the line number is the
count of newline characters before the match start, plus one. -/
def mkEndpoint (c : String) (t : List Char × List Char × Nat) : Endpoint :=
  { method := t.1, path := t.2.1, line := (c.data.take t.2.2).count '\n' + 1 }

/-- All `ROUTE_RE` matches of the main file's text, with start positions. -/
def rawEndpoints (c : String) : List (List Char × List Char × Nat) :=
  scanRoutes c.data 0

/-- The pure body of `parse_endpoints` once the main file's text is in hand:
extract, deduplicate, then attach each endpoint's compiled pattern. -/
def parsedEndpoints (c : String) : List Endpoint :=
  (dedupEPs ((rawEndpoints c).map (mkEndpoint c)) []).map
    (fun ep => { ep with regex := some ep.build_regex })

/-- `parse_endpoints`: a missing main file raises `SystemExit` with a message
naming the path; otherwise the parsed endpoint list is returned. -/
def parse_endpoints (mainPath : String) (mainFile : Option String) :
    Except String (List Endpoint) :=
  match mainFile with
  | none => Except.error ("Cannot locate main.go at " ++ mainPath)
  | some c => Except.ok (parsedEndpoints c)

/-- A directory entry under a UI root: its base name (for the extension),
its repository-relative path, whether it is a directory, and its text if it
decodes as UTF-8 (`none` models a `UnicodeDecodeError`). -/
structure UIEntry where
  name : String
  rel : String
  isDir : Bool
  content : Option String
deriving DecidableEq, Repr

/-- One configured UI root: whether the directory exists and, if so, the
entries `rglob("*")` enumerates beneath it, in traversal order. -/
structure UIRoot where
  present : Bool
  entries : List UIEntry
deriving DecidableEq, Repr

/-- The fixed `TEXT_EXTENSIONS` allow-list. -/
def TEXT_EXTENSIONS : List String :=
  [".html", ".htm", ".js", ".ts", ".tsx", ".css", ".scss", ".go", ".json", ".md", ".txt", ".tmpl"]

/-- `str.lower` on the ASCII range. -/
def lowerStr (s : String) : String :=
  String.mk (s.data.map Char.toLower)

/-- `pathlib`'s `suffix` of a base name: from the last dot, provided that dot
is neither the first nor the last character. -/
def pySuffix (name : String) : String :=
  let pre := name.data.reverse.takeWhile (fun c => c ≠ '.')
  if 0 < pre.length ∧ pre.length + 1 < name.data.length then
    String.mk ('.' :: pre.reverse)
  else ""

/-- The per-file filter of `iter_ui_files`: not a directory, and the
lowercased extension is allow-listed. -/
def uiFileOk (e : UIEntry) : Bool :=
  !e.isDir && TEXT_EXTENSIONS.contains (lowerStr (pySuffix e.name))

/-- `iter_ui_files`: for each root in order, if it exists, its entries that
pass the filter; absent roots contribute nothing. -/
def iter_ui_files (roots : List UIRoot) : List UIEntry :=
  roots.flatMap (fun b => if b.present then b.entries.filter uiFileOk else [])

/-- The files `scan_usage` actually searches: the UTF-8-decodable ones,
paired text-and-relative-path; a `UnicodeDecodeError` entry is dropped. -/
def decodedFiles (roots : List UIRoot) : List (String × String) :=
  (iter_ui_files roots).filterMap (fun e => e.content.map (fun t => (t, e.rel)))

/-- `ep.regex and ep.regex.search(text)`: a `None` pattern never matches. -/
def epMatchesText (ep : Endpoint) (text : String) : Bool :=
  match ep.regex with
  | some r => research r text.data
  | none => false

/-- The inner-loop body of `scan_usage` for one file `f = (text, rel)` and
one endpoint: an already-used endpoint is skipped; on a pattern hit the
endpoint becomes used and `rel` is appended to its matches. -/
def scanStep (f : String × String) (ep : Endpoint) : Endpoint :=
  if ep.used then ep
  else if epMatchesText ep f.1 then { ep with used := true, matches' := ep.matches' ++ [f.2] }
  else ep

/-- `scan_usage`: fold the per-file update over the decodable UI files. -/
def scan_usage (roots : List UIRoot) (eps : List Endpoint) : List Endpoint :=
  (decodedFiles roots).foldl (fun acc f => acc.map (scanStep f)) eps

/-- The two lines of the final advisory `NOTE` print. -/
def NOTE_LINES : List String :=
  ["NOTE: Some endpoints might be consumed by non-UI clients (CLI, integrations).",
   "Use this report as a starting point and double-check before removing anything."]

/-- Python's `f"{m:<6}"`: left-justify to width six. -/
def padMethod (m : String) : String :=
  m ++ String.mk (List.replicate (6 - m.length) ' ')

/-- One line of the unused-endpoint listing. -/
def fmtUnused (ep : Endpoint) : String :=
  "  - " ++ padMethod (String.mk ep.method) ++ " " ++ String.mk ep.full_path ++
    " (defined line " ++ toString ep.line ++ ")"

/-- The printed report for a non-empty, already-scanned endpoint list. -/
def report (eps : List Endpoint) : List String :=
  let unused := eps.filter (fun ep => !ep.used)
  let used := eps.length - unused.length
  ["Total API endpoints found: " ++ toString eps.length,
   "Used by UI artifacts:      " ++ toString used,
   "Unused in UI (potential):  " ++ toString unused.length,
   ""] ++
  (if unused.isEmpty then
    ["All parsed endpoints have at least one UI reference."]
  else
    ("Endpoints without matches in ui/* or webassets/*:" :: unused.map fmtUnused) ++
      [""] ++ NOTE_LINES)

/-- `main`: parse (aborting if the main file is missing), stop early on an
empty endpoint list, otherwise scan and report.  The result is the list of
printed lines. -/
def main (mainPath : String) (mainFile : Option String) (roots : List UIRoot) :
    Except String (List String) :=
  match parse_endpoints mainPath mainFile with
  | Except.error e => Except.error e
  | Except.ok eps =>
    if eps.isEmpty then Except.ok ["No API endpoints parsed."]
    else Except.ok (report (scan_usage roots eps))

/-- Reasoning auxiliary: the effect of the whole file loop on one endpoint.
`scan_usage` is proved equal to mapping this over the endpoint list. -/
def scanEp (fs : List (String × String)) (ep : Endpoint) : Endpoint :=
  fs.foldl (fun e f => scanStep f e) ep

/-- Reasoning auxiliary: the exact text shape of a `ROUTE_RE` match with
captures `m` (the verb) and `p` (the quoted path), whitespace runs `w1`,
`w2`, and trailing text `suf`. -/
def routeShape (m p w1 w2 suf : List Char) : List Char :=
  'a' :: 'p' :: 'i' :: '.' :: (m ++ w1 ++ '(' :: (w2 ++ '"' :: (p ++ '"' :: suf)))

/- ------------------------------------------------------------------ -/
/- Helper lemmas.                                                     -/
/- ------------------------------------------------------------------ -/

theorem scan_fold_eq_map (fs : List (String × String)) (eps : List Endpoint) :
    fs.foldl (fun acc f => acc.map (scanStep f)) eps = eps.map (scanEp fs) := by
  induction fs generalizing eps with
  | nil =>
    simp only [List.foldl_nil]
    induction eps with
    | nil => rfl
    | cons e es ihe =>
      show e :: es = scanEp [] e :: es.map (scanEp [])
      rw [← ihe]
      rfl
  | cons f fs ih =>
    simp only [List.foldl_cons, ih, List.map_map, scanEp]
    rfl

theorem scan_usage_eq_map (roots : List UIRoot) (eps : List Endpoint) :
    scan_usage roots eps = eps.map (scanEp (decodedFiles roots)) :=
  scan_fold_eq_map _ _

theorem scanStep_of_used (f : String × String) (ep : Endpoint) (h : ep.used = true) :
    scanStep f ep = ep := by
  simp [scanStep, h]

theorem scanEp_of_used (fs : List (String × String)) (ep : Endpoint) (h : ep.used = true) :
    scanEp fs ep = ep := by
  induction fs with
  | nil => rfl
  | cons f fs ih =>
    show scanEp fs (scanStep f ep) = ep
    rw [scanStep_of_used f ep h]
    exact ih

theorem scanEp_of_unused (fs : List (String × String)) (ep : Endpoint) (h : ep.used = false) :
    scanEp fs ep =
      match fs.find? (fun f => epMatchesText ep f.1) with
      | some f => { ep with used := true, matches' := ep.matches' ++ [f.2] }
      | none => ep := by
  induction fs with
  | nil => rfl
  | cons f fs ih =>
    by_cases hm : epMatchesText ep f.1
    · have hstep : scanStep f ep = { ep with used := true, matches' := ep.matches' ++ [f.2] } := by
        simp [scanStep, h, hm]
      have hrest := scanEp_of_used fs { ep with used := true, matches' := ep.matches' ++ [f.2] } rfl
      show scanEp fs (scanStep f ep) = _
      rw [hstep, hrest, List.find?_cons]
      simp [hm]
    · have hstep : scanStep f ep = ep := by simp [scanStep, h, hm]
      show scanEp fs (scanStep f ep) = _
      rw [hstep, ih, List.find?_cons]
      simp [hm]

theorem scanEp_cases (fs : List (String × String)) (ep : Endpoint) :
    scanEp fs ep = ep ∨
      ∃ rel, scanEp fs ep = { ep with used := true, matches' := ep.matches' ++ [rel] } := by
  cases h : ep.used with
  | true => exact Or.inl (scanEp_of_used fs ep h)
  | false =>
    rw [scanEp_of_unused fs ep h]
    cases hf : fs.find? (fun f => epMatchesText ep f.1) with
    | none => exact Or.inl rfl
    | some f => exact Or.inr ⟨f.2, rfl⟩

theorem scanEp_fields (fs : List (String × String)) (ep : Endpoint) :
    (scanEp fs ep).method = ep.method ∧ (scanEp fs ep).path = ep.path ∧
      (scanEp fs ep).line = ep.line ∧ (scanEp fs ep).regex = ep.regex := by
  rcases scanEp_cases fs ep with h | ⟨rel, h⟩ <;> rw [h] <;> exact ⟨rfl, rfl, rfl, rfl⟩

theorem dedupEPs_subset {l : List Endpoint} {seen : List (List Char × List Char)}
    {ep : Endpoint} (h : ep ∈ dedupEPs l seen) : ep ∈ l := by
  induction l generalizing seen with
  | nil => simp [dedupEPs] at h
  | cons e rest ih =>
    simp only [dedupEPs] at h
    split at h
    · exact List.mem_cons_of_mem _ (ih h)
    · rcases List.mem_cons.mp h with h' | h'
      · exact h' ▸ List.mem_cons_self _ _
      · exact List.mem_cons_of_mem _ (ih h')

theorem dedupEPs_first (l : List Endpoint) (seen : List (List Char × List Char))
    (ep : Endpoint) (h : ep ∈ dedupEPs l seen) :
    epKey ep ∉ seen ∧ l.find? (fun e => epKey e == epKey ep) = some ep := by
  induction l generalizing seen with
  | nil => simp [dedupEPs] at h
  | cons e rest ih =>
    simp only [dedupEPs] at h
    split at h
    · rename_i hseen
      obtain ⟨hnot, hfind⟩ := ih seen h
      have hne : epKey e ≠ epKey ep := fun heq => hnot (heq ▸ hseen)
      have hbe : (epKey e == epKey ep) = false := beq_eq_false_iff_ne.mpr hne
      refine ⟨hnot, ?_⟩
      rw [List.find?_cons]
      simp only [hbe]
      exact hfind
    · rename_i hseen
      rcases List.mem_cons.mp h with h' | h'
      · subst h'
        refine ⟨hseen, ?_⟩
        rw [List.find?_cons]
        simp
      · obtain ⟨hnot, hfind⟩ := ih _ h'
        have hne : epKey e ≠ epKey ep := by
          intro heq
          exact hnot (heq ▸ List.mem_cons_self _ _)
        have hbe : (epKey e == epKey ep) = false := beq_eq_false_iff_ne.mpr hne
        refine ⟨fun hs => hnot (List.mem_cons_of_mem _ hs), ?_⟩
        rw [List.find?_cons]
        simp only [hbe]
        exact hfind

theorem dedupEPs_keys_nodup (l : List Endpoint) (seen : List (List Char × List Char)) :
    ((dedupEPs l seen).map epKey).Nodup ∧
      ∀ k ∈ (dedupEPs l seen).map epKey, k ∉ seen := by
  induction l generalizing seen with
  | nil => simp [dedupEPs]
  | cons e rest ih =>
    simp only [dedupEPs]
    split
    · exact ih seen
    · rename_i hseen
      obtain ⟨hnd, hnot⟩ := ih (epKey e :: seen)
      constructor
      · simp only [List.map_cons, List.nodup_cons]
        refine ⟨fun hmem => ?_, hnd⟩
        exact hnot _ hmem (List.mem_cons_self _ _)
      · intro k hk
        simp only [List.map_cons, List.mem_cons] at hk
        rcases hk with hk | hk
        · exact hk ▸ hseen
        · exact fun hs => hnot _ hk (List.mem_cons_of_mem _ hs)

theorem dedupEPs_keys_mem (l : List Endpoint) (seen : List (List Char × List Char))
    (k : List Char × List Char) :
    k ∈ (dedupEPs l seen).map epKey ↔ k ∈ l.map epKey ∧ k ∉ seen := by
  induction l generalizing seen with
  | nil => simp [dedupEPs]
  | cons e rest ih =>
    simp only [dedupEPs]
    split
    · rename_i hseen
      rw [ih seen]
      simp only [List.map_cons, List.mem_cons]
      constructor
      · rintro ⟨hk, hns⟩; exact ⟨Or.inr hk, hns⟩
      · rintro ⟨hk | hk, hns⟩
        · exact absurd (hk ▸ hseen) hns
        · exact ⟨hk, hns⟩
    · rename_i hseen
      simp only [List.map_cons, List.mem_cons, ih (epKey e :: seen), List.mem_cons]
      constructor
      · rintro (hk | ⟨hk, hns⟩)
        · exact ⟨Or.inl hk, hk ▸ hseen⟩
        · exact ⟨Or.inr hk, fun hs => hns (Or.inr hs)⟩
      · rintro ⟨hk | hk, hns⟩
        · exact Or.inl hk
        · by_cases hke : k = epKey e
          · exact Or.inl hke
          · refine Or.inr ⟨hk, fun hs => ?_⟩
            rcases hs with h | h
            · exact hke h
            · exact hns h

theorem filter_length_split (p : Endpoint → Bool) (l : List Endpoint) :
    (l.filter p).length + (l.filter (fun e => !p e)).length = l.length := by
  induction l with
  | nil => rfl
  | cons e rest ih =>
    by_cases h : p e <;> simp [List.filter_cons, h] <;> omega

theorem parsedEndpoints_initial (c : String) (ep : Endpoint)
    (h : ep ∈ parsedEndpoints c) :
    ep.used = false ∧ ep.matches' = [] ∧ ep.regex = some ep.build_regex := by
  simp only [parsedEndpoints, List.mem_map] at h
  obtain ⟨e, he, rfl⟩ := h
  have := dedupEPs_subset he
  simp only [List.mem_map] at this
  obtain ⟨t, _, rfl⟩ := this
  exact ⟨rfl, rfl, rfl⟩

/- ------------------------------------------------------------------ -/
/- Claims.                                                            -/
/- ------------------------------------------------------------------ -/

/-- C5: if the mandatory source file is missing, the tool aborts with a
message naming the missing path and produces no report lines; with the file
present it never aborts, whatever its contents and whatever the UI roots
hold — the missing file is the only abort condition. -/
theorem c5_missing_main_aborts :
    (∀ (mp : String) (roots : List UIRoot),
      main mp none roots = Except.error ("Cannot locate main.go at " ++ mp)) ∧
    (∀ (mp c : String) (roots : List UIRoot),
      ∃ out, main mp (some c) roots = Except.ok out) := by
  constructor
  · intro mp roots
    rfl
  · intro mp c roots
    by_cases h : (parsedEndpoints c).isEmpty <;>
      simp [main, parse_endpoints, h]

/-- Witness for C5: the abort message at a concrete path, and a concrete
present-file run that does not abort. -/
theorem c5_missing_main_aborts_witness :
    main "cmd/sdsm/main.go" none [] =
      Except.error ("Cannot locate main.go at " ++ "cmd/sdsm/main.go") :=
  c5_missing_main_aborts.1 "cmd/sdsm/main.go" []

/-- C6: when zero endpoints are parsed the tool prints exactly the single
line `No API endpoints parsed.` and nothing else, and exits normally (the
scanner and reporter never contribute lines, for any roots). -/
theorem c6_no_endpoints_message (mp c : String) (roots : List UIRoot)
    (h : parsedEndpoints c = []) :
    main mp (some c) roots = Except.ok ["No API endpoints parsed."] := by
  simp [main, parse_endpoints, h]

/-- Witness for C6 at a concrete source text with no route declarations. -/
theorem c6_no_endpoints_message_witness :
    main "cmd/sdsm/main.go" (some "package main") [] =
      Except.ok ["No API endpoints parsed."] :=
  c6_no_endpoints_message "cmd/sdsm/main.go" "package main" [] (by decide)

/-- Supporting check that the fueled scanner really terminates with fuel to
spare: a successful `ROUTE_RE` match strictly consumes input. -/
theorem matchRoute_consumes {l m p r : List Char} (h : matchRoute l = some (m, p, r)) :
    r.length < l.length := by
  unfold matchRoute at h
  split at h
  · rename_i r0
    split at h
    · exact absurd h (by simp)
    · split at h
      · rename_i r1 h1
        split at h
        · rename_i r2 h2
          split at h
          · exact absurd h (by simp)
          · split at h
            · rename_i r3 h3
              simp only [Option.some.injEq, Prod.mk.injEq] at h
              obtain ⟨-, -, hr⟩ := h
              subst hr
              have s3 : (('"' : Char) :: r3).length ≤ r2.length := by
                rw [← h3]; exact (List.dropWhile_sublist _).length_le
              have s2 : (('"' : Char) :: r2).length ≤ r1.length := by
                rw [← h2]; exact (List.dropWhile_sublist _).length_le
              have s1 : (('(' : Char) :: r1).length ≤ (r0.dropWhile Char.isUpper).length := by
                rw [← h1]; exact (List.dropWhile_sublist _).length_le
              have t0 := (List.dropWhile_sublist Char.isUpper (l := r0)).length_le
              simp at s3 s2 s1
              simp
              omega
            · exact absurd h (by simp)
        · exact absurd h (by simp)
      · exact absurd h (by simp)
  · exact absurd h (by simp)

/-- C7: a file participates in the usage scan iff its root exists, it is not
a directory, its lowercased extension is allow-listed, and (for its text to
be searched) it decodes as UTF-8; an absent root contributes no files, a
file failing the extension filter is never enumerated, and an undecodable
file is dropped before matching — all total, no error case. -/
theorem c7_scan_participation (roots : List UIRoot) :
    (∀ e : UIEntry, e ∈ iter_ui_files roots ↔
      ∃ b ∈ roots, b.present = true ∧ e ∈ b.entries ∧ e.isDir = false ∧
        TEXT_EXTENSIONS.contains (lowerStr (pySuffix e.name)) = true) ∧
    (∀ tr : String × String, tr ∈ decodedFiles roots ↔
      ∃ e ∈ iter_ui_files roots, e.content = some tr.1 ∧ e.rel = tr.2) := by
  constructor
  · intro e
    simp only [iter_ui_files, List.mem_flatMap]
    constructor
    · rintro ⟨b, hb, he⟩
      split at he
      · rename_i hp
        rw [List.mem_filter] at he
        obtain ⟨hmem, hok⟩ := he
        simp only [uiFileOk, Bool.and_eq_true, Bool.not_eq_true'] at hok
        exact ⟨b, hb, hp, hmem, hok.1, hok.2⟩
      · simp at he
    · rintro ⟨b, hb, hp, hmem, hdir, hext⟩
      refine ⟨b, hb, ?_⟩
      rw [if_pos hp, List.mem_filter]
      exact ⟨hmem, by simpa [uiFileOk, hdir] using hext⟩
  · intro tr
    simp only [decodedFiles, List.mem_filterMap]
    constructor
    · rintro ⟨e, he, hmap⟩
      cases hc : e.content with
      | none => rw [hc] at hmap; simp [Option.map] at hmap
      | some t =>
        rw [hc] at hmap
        simp only [Option.map, Option.some.injEq] at hmap
        cases hmap
        exact ⟨e, he, by simp [hc]⟩
    · rintro ⟨e, he, hc, hrel⟩
      exact ⟨e, he, by simp [hc, hrel]⟩

theorem scan_usage_length (roots : List UIRoot) (eps : List Endpoint) :
    (scan_usage roots eps).length = eps.length := by
  rw [scan_usage_eq_map]
  simp

theorem scan_usage_get (roots : List UIRoot) (eps : List Endpoint) (i : Nat)
    (h : i < eps.length) (h2 : i < (scan_usage roots eps).length) :
    (scan_usage roots eps)[i] = scanEp (decodedFiles roots) eps[i] := by
  simp [scan_usage_eq_map]

/-- C3: during the scan, an endpoint already marked used is never changed by
later files (it is skipped, so its recorded matches cannot grow); an unused
endpoint is updated exactly at the first decodable file whose text its
pattern matches: `used` becomes true and that file's repository-relative
path is appended to its matches; if no file matches it is unchanged. -/
theorem c3_scan_usage_first_match (roots : List UIRoot) (eps : List Endpoint) (i : Nat)
    (h : i < eps.length) :
    ∃ h2 : i < (scan_usage roots eps).length,
      (eps[i].used = true → (scan_usage roots eps)[i] = eps[i]) ∧
      (eps[i].used = false →
        (scan_usage roots eps)[i] =
          match (decodedFiles roots).find? (fun f => epMatchesText eps[i] f.1) with
          | some f => { eps[i] with used := true, matches' := eps[i].matches' ++ [f.2] }
          | none => eps[i]) := by
  have hlen : (scan_usage roots eps).length = eps.length := scan_usage_length roots eps
  have h2 : i < (scan_usage roots eps).length := by omega
  have hget := scan_usage_get roots eps i h h2
  refine ⟨h2, fun hu => ?_, fun hu => ?_⟩
  · rw [hget, scanEp_of_used _ _ hu]
  · rw [hget, scanEp_of_unused _ _ hu]

/-- Witness for C3: on a one-endpoint list and a one-file tree whose file
matches, the scan marks the endpoint used with that file recorded. -/
theorem c3_scan_usage_first_match_witness :
    (scan_usage [⟨true, [⟨"a.js", "ui/a.js", false, some "/api/x"⟩]⟩]
        [{ method := "GET".data, path := "/x".data, line := 1,
           regex := some (compilePat "/api/x".data) }]).get ⟨0, by decide⟩ =
      { method := "GET".data, path := "/x".data, line := 1,
        regex := some (compilePat "/api/x".data), used := true,
        matches' := ["ui/a.js"] } := by
  obtain ⟨h2, hA, hB⟩ := c3_scan_usage_first_match
    [⟨true, [⟨"a.js", "ui/a.js", false, some "/api/x"⟩]⟩]
    [{ method := "GET".data, path := "/x".data, line := 1,
       regex := some (compilePat "/api/x".data) }] 0 (by decide)
  exact (hB (by decide)).trans (by decide)

/-- C10: after the scan, every endpoint has at most one recorded match,
is marked used exactly when a match is recorded, and its `method`, `path`,
`line` and `regex` fields are exactly the ones `parse_endpoints` assigned,
unchanged by the scan. -/
theorem c10_endpoint_invariants (c : String) (roots : List UIRoot) (i : Nat)
    (h : i < (scan_usage roots (parsedEndpoints c)).length) :
    (scan_usage roots (parsedEndpoints c))[i].matches'.length ≤ 1 ∧
    ((scan_usage roots (parsedEndpoints c))[i].used = true ↔
      (scan_usage roots (parsedEndpoints c))[i].matches' ≠ []) ∧
    ∃ h2 : i < (parsedEndpoints c).length,
      (scan_usage roots (parsedEndpoints c))[i].method = (parsedEndpoints c)[i].method ∧
      (scan_usage roots (parsedEndpoints c))[i].path = (parsedEndpoints c)[i].path ∧
      (scan_usage roots (parsedEndpoints c))[i].line = (parsedEndpoints c)[i].line ∧
      (scan_usage roots (parsedEndpoints c))[i].regex = (parsedEndpoints c)[i].regex ∧
      (parsedEndpoints c)[i].regex = some (parsedEndpoints c)[i].build_regex := by
  have hlen := scan_usage_length roots (parsedEndpoints c)
  have h2 : i < (parsedEndpoints c).length := by omega
  have hget := scan_usage_get roots (parsedEndpoints c) i h2 h
  have hmem : (parsedEndpoints c)[i] ∈ parsedEndpoints c := List.getElem_mem h2
  obtain ⟨hu, hm, hr⟩ := parsedEndpoints_initial c _ hmem
  rw [hget]
  rcases scanEp_cases (decodedFiles roots) ((parsedEndpoints c)[i]) with hcase | ⟨rel, hcase⟩ <;>
    rw [hcase]
  · refine ⟨by rw [hm]; simp, by rw [hu, hm]; simp, h2, rfl, rfl, rfl, rfl, hr⟩
  · refine ⟨by simp [hm], by simp [hm], h2, rfl, rfl, rfl, rfl, hr⟩

/-- Witness for C10 at a concrete source text and UI tree. -/
theorem c10_endpoint_invariants_witness :
    ((scan_usage [⟨true, [⟨"a.js", "ui/a.js", false, some "/api/x"⟩]⟩]
        (parsedEndpoints "api.GET(\"/x\")")).get ⟨0, by decide⟩).matches'.length ≤ 1 :=
  (c10_endpoint_invariants "api.GET(\"/x\")"
    [⟨true, [⟨"a.js", "ui/a.js", false, some "/api/x"⟩]⟩] 0 (by decide)).1

/-- C2: `parse_endpoints` returns exactly one Endpoint per unique
(method, path) pair among the `ROUTE_RE` occurrences — the retained keys are
pairwise distinct and are exactly the keys of the raw match list — and each
retained Endpoint is built from the pair's first occurrence, its line number
being the count of newlines before that occurrence's start plus one. -/
theorem c2_parse_endpoints_unique_first (c : String) :
    ((parsedEndpoints c).map epKey).Nodup ∧
    (∀ k : List Char × List Char,
      k ∈ (parsedEndpoints c).map epKey ↔
        k ∈ (rawEndpoints c).map (fun t => (t.1, t.2.1))) ∧
    (∀ ep ∈ parsedEndpoints c,
      ∃ t, (rawEndpoints c).find? (fun t => (t.1, t.2.1) == epKey ep) = some t ∧
        ep.method = t.1 ∧ ep.path = t.2.1 ∧
        ep.line = (c.data.take t.2.2).count '\n' + 1) := by
  have hcomp : (epKey ∘ fun ep => { ep with regex := some ep.build_regex }) = epKey :=
    funext fun _ => rfl
  have hkeymap : (parsedEndpoints c).map epKey =
      (dedupEPs ((rawEndpoints c).map (mkEndpoint c)) []).map epKey := by
    simp only [parsedEndpoints, List.map_map]
    rw [hcomp]
  refine ⟨?_, ?_, ?_⟩
  · rw [hkeymap]
    exact (dedupEPs_keys_nodup _ _).1
  · intro k
    rw [hkeymap, dedupEPs_keys_mem]
    have h2 : (epKey ∘ mkEndpoint c) = fun t => (t.1, t.2.1) := funext fun _ => rfl
    simp [List.map_map, h2]
  · intro ep hep
    simp only [parsedEndpoints, List.mem_map] at hep
    obtain ⟨e, he, rfl⟩ := hep
    have hfind := (dedupEPs_first _ [] e he).2
    rw [List.find?_map] at hfind
    cases hf : (rawEndpoints c).find? ((fun x => epKey x == epKey e) ∘ mkEndpoint c) with
    | none =>
      rw [hf] at hfind
      simp at hfind
    | some t =>
      rw [hf] at hfind
      simp only [Option.map_some', Option.some.injEq] at hfind
      subst hfind
      exact ⟨t, hf, rfl, rfl, rfl⟩

/-- Witness for C2: on a source text declaring the same route twice, the
deduplicated key list has no duplicates. -/
theorem c2_parse_endpoints_unique_first_witness :
    ((parsedEndpoints "api.GET(\"/a\")\napi.GET(\"/a\")").map epKey).Nodup :=
  (c2_parse_endpoints_unique_first "api.GET(\"/a\")\napi.GET(\"/a\")").1

/-- C4: with a non-empty endpoint list the report prints the total count,
the used count, the unused count (with used plus unused equal to the total,
the total being that of the parsed list), a blank line, and — when any
endpoint is unused — the unused endpoints in list order formatted as padded
method, full path and declaration line, then the fixed advisory caveat. -/
theorem c4_report_structure (mp c : String) (roots : List UIRoot)
    (h : parsedEndpoints c ≠ []) :
    main mp (some c) roots = Except.ok (
      ["Total API endpoints found: " ++
          toString (scan_usage roots (parsedEndpoints c)).length,
       "Used by UI artifacts:      " ++
          toString ((scan_usage roots (parsedEndpoints c)).length -
            ((scan_usage roots (parsedEndpoints c)).filter (fun ep => !ep.used)).length),
       "Unused in UI (potential):  " ++
          toString ((scan_usage roots (parsedEndpoints c)).filter (fun ep => !ep.used)).length,
       ""] ++
      (if ((scan_usage roots (parsedEndpoints c)).filter (fun ep => !ep.used)).isEmpty then
        ["All parsed endpoints have at least one UI reference."]
      else
        ("Endpoints without matches in ui/* or webassets/*:" ::
          ((scan_usage roots (parsedEndpoints c)).filter (fun ep => !ep.used)).map fmtUnused) ++
          [""] ++ NOTE_LINES)) ∧
    ((scan_usage roots (parsedEndpoints c)).length -
        ((scan_usage roots (parsedEndpoints c)).filter (fun ep => !ep.used)).length) +
      ((scan_usage roots (parsedEndpoints c)).filter (fun ep => !ep.used)).length =
      (scan_usage roots (parsedEndpoints c)).length ∧
    (scan_usage roots (parsedEndpoints c)).length -
        ((scan_usage roots (parsedEndpoints c)).filter (fun ep => !ep.used)).length =
      ((scan_usage roots (parsedEndpoints c)).filter (fun ep => ep.used)).length ∧
    (scan_usage roots (parsedEndpoints c)).length = (parsedEndpoints c).length := by
  have hne : ¬((parsedEndpoints c).isEmpty = true) := by
    simp only [List.isEmpty_iff]
    exact h
  have hsplit := filter_length_split (fun ep => ep.used) (scan_usage roots (parsedEndpoints c))
  refine ⟨?_, by omega, by omega, scan_usage_length roots (parsedEndpoints c)⟩
  show (if (parsedEndpoints c).isEmpty then Except.ok ["No API endpoints parsed."]
    else Except.ok (report (scan_usage roots (parsedEndpoints c)))) = _
  rw [if_neg hne]
  rfl

/-- Witness for C4: the report totals agree with the parsed list on a
concrete one-endpoint input. -/
theorem c4_report_structure_witness :
    (scan_usage [] (parsedEndpoints "api.GET(\"/x\")")).length =
      (parsedEndpoints "api.GET(\"/x\")").length :=
  (c4_report_structure "m" "api.GET(\"/x\")" [] (by decide)).2.2.2

/-- Witness for C7: a concrete decodable `.js` file under a present root
participates in the scan. -/
theorem c7_scan_participation_witness :
    (⟨"a.js", "ui/a.js", false, some "x"⟩ : UIEntry) ∈
      iter_ui_files [⟨true, [⟨"a.js", "ui/a.js", false, some "x"⟩]⟩] :=
  ((c7_scan_participation [⟨true, [⟨"a.js", "ui/a.js", false, some "x"⟩]⟩]).1
    ⟨"a.js", "ui/a.js", false, some "x"⟩).mpr (by decide)

/-- C9: the tool's report is a deterministic function of its inputs — two
runs over the same main-file text and the same UI tree produce identical
output. -/
theorem c9_deterministic (mp : String) (mf : Option String) (roots : List UIRoot)
    (out1 out2 : Except String (List String))
    (h1 : main mp mf roots = out1) (h2 : main mp mf roots = out2) :
    out1 = out2 := by
  rw [← h1, ← h2]

/-- Witness for C9 at a concrete input. -/
theorem c9_deterministic_witness :
    (Except.ok ["No API endpoints parsed."] : Except String (List String)) =
      (Except.ok ["No API endpoints parsed."] : Except String (List String)) :=
  c9_deterministic "cmd/sdsm/main.go" (some "x") []
    (Except.ok ["No API endpoints parsed."]) (Except.ok ["No API endpoints parsed."])
    (by rfl) (by rfl)

theorem matchRoute_sound {l m p r : List Char} (h : matchRoute l = some (m, p, r)) :
    m ≠ [] ∧ (∀ ch ∈ m, ch.isUpper = true) ∧ p ≠ [] ∧ (∀ ch ∈ p, ch ≠ '"') ∧
    ∃ w1 w2, l = routeShape m p w1 w2 r := by
  unfold matchRoute at h
  split at h
  · rename_i r0
    split at h
    · exact absurd h (by simp)
    · rename_i hm0
      split at h
      · rename_i r1 h1
        split at h
        · rename_i r2 h2
          split at h
          · exact absurd h (by simp)
          · rename_i hp0
            split at h
            · rename_i r3 h3
              simp only [Option.some.injEq, Prod.mk.injEq] at h
              obtain ⟨hm, hp, hr⟩ := h
              subst hm
              subst hp
              subst hr
              refine ⟨?_, ?_, ?_, ?_,
                (r0.dropWhile Char.isUpper).takeWhile pyIsSpace, r1.takeWhile pyIsSpace, ?_⟩
              · simpa [List.isEmpty_iff] using hm0
              · exact fun ch hch => List.mem_takeWhile_imp hch
              · simpa [List.isEmpty_iff] using hp0
              · intro ch hch
                simpa using List.mem_takeWhile_imp hch
              · simp only [routeShape, List.cons.injEq]
                refine ⟨trivial, trivial, trivial, trivial, ?_⟩
                rw [List.append_assoc]
                conv_lhs => rw [← List.takeWhile_append_dropWhile Char.isUpper r0]
                congr 1
                conv_lhs =>
                  rw [← List.takeWhile_append_dropWhile pyIsSpace (r0.dropWhile Char.isUpper)]
                rw [h1]
                congr 1
                simp only [List.cons.injEq]
                refine ⟨trivial, ?_⟩
                conv_lhs => rw [← List.takeWhile_append_dropWhile pyIsSpace r1]
                rw [h2]
                congr 1
                simp only [List.cons.injEq]
                refine ⟨trivial, ?_⟩
                conv_lhs =>
                  rw [← List.takeWhile_append_dropWhile (fun c => c ≠ '"') r2]
                rw [h3]
            · exact absurd h (by simp)
        · exact absurd h (by simp)
      · exact absurd h (by simp)
  · exact absurd h (by simp)

theorem scanRoutesF_sound :
    ∀ (fuel : Nat) (l : List Char) (pos : Nat) (m p : List Char) (q : Nat),
      (m, p, q) ∈ scanRoutesF fuel l pos →
      m ≠ [] ∧ (∀ ch ∈ m, ch.isUpper = true) ∧ p ≠ [] ∧ (∀ ch ∈ p, ch ≠ '"') ∧
      ∃ pre w1 w2 suf, l = pre ++ routeShape m p w1 w2 suf := by
  intro fuel
  induction fuel with
  | zero =>
    intro l pos m p q hmem
    cases l <;> simp [scanRoutesF] at hmem
  | succ fuel ih =>
    intro l pos m p q hmem
    cases l with
    | nil => simp [scanRoutesF] at hmem
    | cons c rest =>
      simp only [scanRoutesF] at hmem
      cases hR : matchRoute (c :: rest) with
      | none =>
        rw [hR] at hmem
        obtain ⟨h1, h2, h3, h4, pre, w1, w2, suf, hdec⟩ := ih rest (pos + 1) m p q hmem
        refine ⟨h1, h2, h3, h4, c :: pre, w1, w2, suf, ?_⟩
        rw [hdec]
        rfl
      | some t =>
        obtain ⟨m0, p0, r⟩ := t
        rw [hR] at hmem
        simp only [List.mem_cons, Prod.mk.injEq] at hmem
        rcases hmem with ⟨hm, hp, -⟩ | hmem
        · subst hm
          subst hp
          obtain ⟨h1, h2, h3, h4, w1, w2, hdec⟩ := matchRoute_sound hR
          exact ⟨h1, h2, h3, h4, [], w1, w2, r, by simpa using hdec⟩
        · obtain ⟨h1, h2, h3, h4, pre, w1, w2, suf, hdec⟩ := ih r _ m p q hmem
          obtain ⟨-, -, -, -, w1', w2', hdec0⟩ := matchRoute_sound hR
          refine ⟨h1, h2, h3, h4,
            routeShape m0 p0 w1' w2' [] ++ pre, w1, w2, suf, ?_⟩
          rw [hdec0, hdec]
          simp [routeShape, List.append_assoc]

/-- C8 (amended): every extracted Endpoint has a nonempty all-uppercase
method, and its path is exactly the quoted string literal of a declaration
present in the source text (nonempty and quote-free); the path begins with
`/` only when the declaration's literal does, which the extractor does not
enforce. -/
theorem c8_method_upper_path_declared (c : String) (ep : Endpoint)
    (h : ep ∈ parsedEndpoints c) :
    ep.method ≠ [] ∧ (∀ ch ∈ ep.method, ch.isUpper = true) ∧
    ep.path ≠ [] ∧ (∀ ch ∈ ep.path, ch ≠ '"') ∧
    ∃ pre w1 w2 suf, c.data = pre ++ routeShape ep.method ep.path w1 w2 suf := by
  simp only [parsedEndpoints, List.mem_map] at h
  obtain ⟨e, he, rfl⟩ := h
  have he0 := dedupEPs_subset he
  simp only [List.mem_map] at he0
  obtain ⟨t, ht, rfl⟩ := he0
  obtain ⟨m, p, q⟩ := t
  exact scanRoutesF_sound c.data.length c.data 0 m p q ht

/-- Counterexample for C8 as stated: on the declaration `api.GET("x")` the
extracted path is `x`, which does not begin with `/`. -/
theorem c8_path_leading_slash_counterexample :
    ∃ ep ∈ parsedEndpoints "api.GET(\"x\")", ep.path.head? ≠ some '/' := by
  decide

/-- Witness for C8 at a concrete declaration. -/
theorem c8_method_upper_path_declared_witness :
    ((parsedEndpoints "api.GET(\"/servers\")").get ⟨0, by decide⟩).method ≠ [] :=
  (c8_method_upper_path_declared "api.GET(\"/servers\")"
    ((parsedEndpoints "api.GET(\"/servers\")").get ⟨0, by decide⟩) (by decide)).1

theorem matchFrom_cons_one (a : RAtom) (rest : List RAtom) (s : List Char) (pos : Nat)
    (hq : a.q = Quant.one) (hb : a.tok ≠ RTok.bos) (he : a.tok ≠ RTok.eos) :
    matchFrom (a :: rest) s pos = (chunkOk a.tok s pos 1 && matchFrom rest s (pos + 1)) := by
  obtain ⟨tok, q⟩ := a
  dsimp only at hq hb he
  subst hq
  cases tok with
  | lit ch => rfl
  | notSlash => rfl
  | notSpace => rfl
  | bos => exact absurd rfl hb
  | eos => exact absurd rfl he

theorem matchFrom_append_bos (s : List Char) :
    ∀ (A : List RAtom) (pos : Nat) (B : List RAtom),
      (∀ a ∈ A, a.q = Quant.one ∧ a.tok ≠ RTok.bos ∧ a.tok ≠ RTok.eos) →
      matchFrom (A ++ ⟨RTok.bos, Quant.one⟩ :: B) s pos = true →
      pos + A.length = 0 := by
  intro A
  induction A with
  | nil =>
    intro pos B hA h
    simp only [List.nil_append] at h
    rw [show matchFrom (⟨RTok.bos, Quant.one⟩ :: B) s pos =
      ((pos == 0) && matchFrom B s pos) from rfl] at h
    simp only [Bool.and_eq_true, beq_iff_eq] at h
    simpa using h.1
  | cons a A ih =>
    intro pos B hA h
    obtain ⟨hq, hb, he⟩ := hA a (List.mem_cons_self a _)
    rw [List.cons_append, matchFrom_cons_one a _ s pos hq hb he, Bool.and_eq_true] at h
    have h2 := ih (pos + 1) B (fun x hx => hA x (List.mem_cons_of_mem a hx)) h.2
    simp only [List.length_cons]
    omega

/-- Any compiled pattern whose atoms start with `n ≥ 1` ordinary one-width
atoms followed by a start-of-string anchor can never match: the anchor would
have to hold at position `≥ n > 0`. -/
theorem research_of_bos_mid (pat : List RAtom) (n : Nat)
    (hsplit : pat = pat.take n ++ ⟨RTok.bos, Quant.one⟩ :: pat.drop (n + 1))
    (hA : ∀ a ∈ pat.take n, a.q = Quant.one ∧ a.tok ≠ RTok.bos ∧ a.tok ≠ RTok.eos)
    (hn : 0 < n) (hlen : (pat.take n).length = n) :
    ∀ s, research pat s = false := by
  intro s
  show (List.range (s.length + 1)).any (fun i => matchFrom pat s i) = false
  refine List.any_eq_false.mpr fun i _ => ?_
  intro hc
  rw [hsplit] at hc
  have h0 := matchFrom_append_bos s _ i _ hA hc
  rw [hlen] at h0
  omega

/-- C1 (code bug): for the one-parameter path `/servers/\:id/restart` the
pattern text built by `build_regex` keeps a stray backslash in front of the
substituted `[^/]+` — `re.escape` (Python >= 3.7) doubles the backslash of
the parameter marker and `PARAM_RE` consumes only one of the two — so the
compiled pattern is a literal `[` followed by a start-of-string anchor in
mid-pattern and matches no string at all, in particular not
`/api/servers/123/restart`, which the claim (and the code's own comment
about the loose matcher) requires it to match; the pattern without the
stray backslash does match that string. -/
theorem c1_build_regex_param_bug :
    starSub (paramSub (reEscape (Endpoint.full_path
        { method := "POST".data, path := "/servers/\\:id/restart".data, line := 1 }))) =
      "/api/servers/\\[^/]+/restart".data ∧
    (∀ s : List Char,
      research (Endpoint.build_regex
        { method := "POST".data, path := "/servers/\\:id/restart".data, line := 1 }) s =
        false) ∧
    research (compilePat "/api/servers/[^/]+/restart".data)
      "/api/servers/123/restart".data = true := by
  refine ⟨by decide, ?_, by decide⟩
  exact research_of_bos_mid
    (Endpoint.build_regex
      { method := "POST".data, path := "/servers/\\:id/restart".data, line := 1 })
    14 (by decide) (by decide) (by decide) (by decide)

end SDSM
